import Mathlib

/-
  Verification of the myping ICMP echo client (src/ping.c).

  The program runs on x86-64 Linux: memory is byte-addressed and
  little-endian.  We model byte buffers as `List Nat` whose elements are
  byte values (< 256), machine integers as `Nat`/`Int` with explicit
  truncation (`% 2^w`) where the C code truncates, and the event loop as
  explicit state passing over a small event type.
-/

namespace Myping

/-- The struct `icmp_t` (ping.c lines 14-21).  All fields are host byte
order; C widths: `type`,`code` are `uint8_t`, `checksum`,`id`,`seq` are
`uint16_t`, `ts` is `uint64_t`. -/
structure icmp_t where
  type : Nat
  code : Nat
  checksum : Nat
  id : Nat
  seq : Nat
  ts : Nat
deriving DecidableEq

/-- Field values representable in the C types of `icmp_t`. -/
def icmp_t.WF (r : icmp_t) : Prop :=
  r.type < 256 ∧ r.code < 256 ∧ r.checksum < 65536 ∧ r.id < 65536 ∧
    r.seq < 65536 ∧ r.ts < 18446744073709551616

/-- Read a `uint16_t` from little-endian memory at byte offset `off`. -/
def readU16LE (m : List Nat) (off : Nat) : Nat :=
  m.getD off 0 + 256 * m.getD (off + 1) 0

/-- Read a `uint64_t` from little-endian memory at byte offset `off`. -/
def readU64LE (m : List Nat) (off : Nat) : Nat :=
  m.getD off 0 + 256 * m.getD (off + 1) 0 + 65536 * m.getD (off + 2) 0 +
    16777216 * m.getD (off + 3) 0 + 4294967296 * m.getD (off + 4) 0 +
    1099511627776 * m.getD (off + 5) 0 + 281474976710656 * m.getD (off + 6) 0 +
    72057594037927936 * m.getD (off + 7) 0

/-- Store a `uint8_t` at byte offset `off` (truncating the value). -/
def store8 (m : List Nat) (off v : Nat) : List Nat :=
  m.set off (v % 256)

/-- Store a `uint16_t` at byte offset `off`, little-endian. -/
def store16 (m : List Nat) (off v : Nat) : List Nat :=
  store8 (store8 m off v) (off + 1) (v / 256)

/-- Store a `uint64_t` at byte offset `off`, little-endian. -/
def store64 (m : List Nat) (off v : Nat) : List Nat :=
  let m1 := store8 m off v
  let m2 := store8 m1 (off + 1) (v / 256)
  let m3 := store8 m2 (off + 2) (v / 65536)
  let m4 := store8 m3 (off + 3) (v / 16777216)
  let m5 := store8 m4 (off + 4) (v / 4294967296)
  let m6 := store8 m5 (off + 5) (v / 1099511627776)
  let m7 := store8 m6 (off + 6) (v / 281474976710656)
  store8 m7 (off + 7) (v / 72057594037927936)

/-- The macro `htons` on a 16-bit value: swap the two bytes. -/
def htons (x : Nat) : Nat :=
  x % 256 * 256 + x / 256 % 256

/-- The macro `ntohs` on a 16-bit value: swap the two bytes (same as `htons`). -/
def ntohs (x : Nat) : Nat :=
  x % 256 * 256 + x / 256 % 256

/-- The loop of `icmp_checksum` (ping.c lines 41-44): sum the 16-bit
words read little-endian from consecutive byte pairs.  On an odd-length
list the final unpaired byte is not visited, exactly like the C loop
`for (i = 0; i < len; i += 2)` running over the even prefix. -/
def wordSumPairs : List Nat → Nat
  | b0 :: b1 :: rest => b0 + 256 * b1 + wordSumPairs rest
  | _ => 0

/-- The function `icmp_checksum` (ping.c lines 28-49) on a buffer of `len = buf.length`
bytes (every call site passes the buffer's true length).  For odd `len`
the C code first decrements `len` and seeds the accumulator with the
16-bit word `[buf[len-1], 0]` — note `buf + len - 1` after the decrement
is byte `len - 2` of the original buffer, not the final byte.  (For
`len = 1` the C code reads `buf[-1]`, which is undefined behaviour; no
theorem below evaluates that case.)  The accumulator is a `uint32_t`,
hence the `% 2^32`; the two folds and the final `~` truncated to
`uint16_t` are modelled exactly. -/
def icmp_checksum (buf : List Nat) : Nat :=
  let len := buf.length
  let init : Nat := if len % 2 = 1 then buf.getD (len - 2) 0 else 0
  let s : Nat := (init + wordSumPairs buf) % 4294967296
  let f1 : Nat := s / 65536 + s % 65536
  let f2 : Nat := f1 + f1 / 65536
  65535 - f2 % 65536

/-- The buffer contents built by `icmp_serialize` (ping.c lines 60-69)
just before the final checksum store: the C code overlays `icmp_t*` on
the buffer and stores, in order, checksum = 0, type, code, `htons(id)`,
`htons(seq)`, ts.  Struct offsets on x86-64: type 0, code 1, checksum 2,
id 4, seq 6, ts 8.  Every byte of the buffer is written, so the initial
contents (uninitialised in C) are irrelevant; we start from zeros. -/
def icmp_image (req : icmp_t) : List Nat :=
  let m0 : List Nat := List.replicate 16 0
  let m1 := store16 m0 2 0
  let m2 := store8 m1 0 req.type
  let m3 := store8 m2 1 req.code
  let m4 := store16 m3 4 (htons (req.id % 65536))
  let m5 := store16 m4 6 (htons (req.seq % 65536))
  store64 m5 8 req.ts

/-- The function `icmp_serialize` (ping.c lines 54-72) into a 16-byte buffer: build
the image with a zero checksum field, then store `icmp_checksum` of it
into the checksum field (the returned value is already network byte
order, so it is stored without swapping). -/
def icmp_serialize (req : icmp_t) : List Nat :=
  store16 (icmp_image req) 2 (icmp_checksum (icmp_image req))

/-- The value of the C expression `len < sizeof(icmp_t)` guarding
`parse_reply` (ping.c line 100): `len` is `int`, `sizeof(icmp_t)` is
`size_t`, so `len` is converted to the unsigned 64-bit type before the
comparison. -/
def reply_len_guard (len : Int) : Bool :=
  (len % 18446744073709551616).toNat < 16

/-- The function `parse_reply` (ping.c lines 99-131).  `buf` is the memory starting at
the ICMP portion, `len` the C `int` length argument.  Returns `none` for
`-1` and `some reply` for `0`.  The struct read `*reply = *(icmp_t*)buf`
reads the first 16 bytes little-endian; the checksum is recomputed over a
copy of the first `len` bytes with the checksum field zeroed.  (When
`len` is negative the guard does not fire — see `reply_len_guard` — and
the C program's subsequent `malloc`/`memcpy` behaviour is undefined;
theorems only evaluate `len = buf.length` or the guard itself.) -/
def parse_reply (buf : List Nat) (len : Int) : Option icmp_t :=
  if reply_len_guard len then none
  else
    let r : icmp_t :=
      ⟨buf.getD 0 0, buf.getD 1 0, readU16LE buf 2, readU16LE buf 4,
        readU16LE buf 6, readU64LE buf 8⟩
    if r.type ≠ 0 ∨ r.code ≠ 0 then none
    else
      let copy := store16 (buf.take len.toNat) 2 0
      let ck := icmp_checksum copy
      if r.checksum ≠ ck then none
      else
        some { r with checksum := ntohs r.checksum, id := ntohs r.id,
                      seq := ntohs r.seq }

/-- The in-flight window `send_times[TIMEOUT]` (ping.c line 206): five
slots, each holding `0` (empty) or a send time in milliseconds.  The C
array holds `double`s; all operations on it (store, compare with 0,
subtract) are exact on the values that arise, so we model times as `Int`. -/
abbrev Window := Fin 5 → Int

/-- Slot index `reply.seq % TIMEOUT` from a `uint16_t` sequence. -/
def slotIdx (n : Nat) : Fin 5 :=
  ⟨n % 5, Nat.mod_lt _ (by omega)⟩

/-- Slot index `seq % TIMEOUT` on the `int` counter; only evaluated at `s ≥ 0`
(the counter starts at 0 and is only incremented). -/
def intIdx (s : Int) : Fin 5 :=
  ⟨(s % 5).toNat, by omega⟩

/-- The window bookkeeping of `on_timeout` (ping.c lines 209-214), with
the global `seq` passed explicitly: report `timeout seq-5` if the slot
about to be reused is non-empty, then overwrite it with the current time.
The returned option is the reported timeout sequence, if any. -/
def record_send (w : Window) (s : Int) (now : Int) : Window × Option Int :=
  let index := intIdx s
  let rep : Option Int := if w index ≠ 0 then some (s - 5) else none
  (Function.update w index now, rep)

/-- The reply-resolution tail of `on_recv` (ping.c lines 262-268), with
the global `seq` passed explicitly: reject if `reply.seq <= seq - TIMEOUT`
(int comparison), otherwise report `(reply.seq, now - send_times[index])`
and zero the slot.  Note the C code has no emptiness test on the slot. -/
def resolve (seq : Int) (w : Window) (rseq : Nat) (now : Int) :
    Window × Option (Nat × Int) :=
  let index := slotIdx rseq
  if (rseq : Int) ≤ seq - 5 then (w, none)
  else (Function.update w index 0, some (rseq, now - w index))

/-- The `uint16_t` wire sequence number of the probe sent at tick `t`
(the `int` counter equals `t` after `t` increments from 0). -/
def wire_seq (t : Nat) : Nat := t % 65536

/-- The session's mutable state: the `int seq` counter and the window. -/
structure Session where
  seq : Int
  sends : Window

/-- State at program start: `seq = 0`, all slots empty. -/
def initSession : Session := ⟨0, fun _ => 0⟩

/-- Events delivered by `epoll_wait`: a timer tick at wall-clock time
`now` (ms), or a datagram (full IP packet bytes) received at time `now`. -/
inductive Ev where
  | tick (now : Int)
  | recv (dgram : List Nat) (now : Int)

/-- Observable output lines. -/
inductive Out where
  | timeout (s : Int)
  | reply (seq : Nat) (ttl : Nat) (time : Int)
deriving DecidableEq

/-- One iteration of the event loop (ping.c lines 304-324 with handlers
`on_timeout` lines 209-231 and `on_recv` lines 238-269): a tick
increments `seq` and performs the `record_send` bookkeeping; a received
datagram has its TTL read at byte 8, its first 20 bytes (IPv4 header)
skipped, the remainder parsed, the identifier compared against
`getpid() & 0xffff`, and on success the window resolved. -/
def step (pid : Nat) (s : Session) : Ev → Session × List Out
  | .tick now =>
    let s1 : Int := s.seq + 1
    let pr := record_send s.sends s1 now
    (⟨s1, pr.1⟩, (pr.2.map Out.timeout).toList)
  | .recv d now =>
    let ttl := d.getD 8 0
    let icmp := d.drop 20
    match parse_reply icmp ((d.length : Int) - 20) with
    | none => (s, [])
    | some r =>
      if r.id = pid % 65536 then
        let pr := resolve s.seq s.sends r.seq now
        (⟨s.seq, pr.1⟩, (pr.2.map fun p => Out.reply p.1 ttl p.2).toList)
      else (s, [])

/-- Run the loop over a list of events, returning the final state. -/
def runS (pid : Nat) (s : Session) : List Ev → Session
  | [] => s
  | e :: es => runS pid (step pid s e).1 es

/-- The probe sent by an event: a tick at time `now` sends the probe with
`int` sequence `seq + 1` at time `now`; a receive sends nothing. -/
def sendsOf (s : Session) : Ev → List (Int × Int)
  | .tick now => [(s.seq + 1, now)]
  | .recv _ _ => []

/-- The chronological log of `(sequence, send time)` records of the run. -/
def sendLog (pid : Nat) (s : Session) : List Ev → List (Int × Int)
  | [] => []
  | e :: es => sendsOf s e ++ sendLog pid (step pid s e).1 es

/-- The most recent send record whose sequence is congruent to `i` mod 5. -/
def lastMatch (log : List (Int × Int)) (i : Fin 5) : Option (Int × Int) :=
  (log.filter (fun p => decide (p.1 % 5 = ((i : Nat) : Int)))).getLast?

/-- Side conditions under which the model is claimed faithful: wall-clock
times are nonzero (they are milliseconds since the epoch, so positive in
reality) and received datagrams carry at least the 20-byte IPv4 header
(shorter datagrams make the C code read uninitialised stack memory, cf.
the `reply_len_guard` analysis). -/
def evOk : Ev → Prop
  | .tick now => now ≠ 0
  | .recv d _ => 20 ≤ d.length

/-- The window invariant: the counter is nonnegative and every slot is
either empty or holds the time of the most recent send into its residue
class modulo 5. -/
def WinInv (s : Session) (log : List (Int × Int)) : Prop :=
  0 ≤ s.seq ∧
    ∀ i : Fin 5, s.sends i = 0 ∨
      ∃ p : Int × Int, lastMatch log i = some p ∧ p.1 % 5 = ((i : Nat) : Int) ∧
        p.2 = s.sends i

/-- Window-level run for the spec's window-semantics property: perform
the `record_send` bookkeeping for each sequence `s` in the list at time
`τ s`, collecting `(sender sequence, reported timeout sequence)` pairs. -/
def runSends (w : Window) (τ : Nat → Int) : List Nat → Window × List (Nat × Int)
  | [] => (w, [])
  | s :: rest =>
    let pr := record_send w (s : Int) (τ s)
    let tail := runSends pr.1 τ rest
    (tail.1, (pr.2.map fun q => (s, q)).toList ++ tail.2)

/-- Modelled from the spec (§4.1 and §8): the verification word sum — all
16-bit words of the buffer, an odd trailing byte padded as the low byte
of a final word whose high byte is 0. -/
def specWordSum : List Nat → Nat
  | b0 :: b1 :: rest => b0 + 256 * b1 + specWordSum rest
  | [b] => b
  | [] => 0

/-- Modelled from the spec (§4.1): end-around carry folding — repeatedly
add the high 16 bits into the low 16 bits until none remain. -/
def specFold (s : Nat) : Nat :=
  if s < 65536 then s else specFold (s / 65536 + s % 65536)
termination_by s
decreasing_by omega

/-! ### Helper lemmas -/

lemma icmp_checksum_le (buf : List Nat) : icmp_checksum buf ≤ 65535 :=
  Nat.sub_le _ _

lemma htons_lo (x : Nat) (h : x < 65536) : htons x % 256 = x / 256 := by
  unfold htons
  rw [Nat.mod_eq_of_lt (show x / 256 < 256 by omega), add_comm,
    Nat.add_mul_mod_self_right, Nat.mod_eq_of_lt (show x / 256 < 256 by omega)]

lemma htons_hi (x : Nat) (h : x < 65536) : htons x / 256 % 256 = x % 256 := by
  unfold htons
  rw [Nat.mod_eq_of_lt (show x / 256 < 256 by omega), add_comm,
    Nat.add_mul_div_right _ _ (show 0 < 256 by omega),
    Nat.div_eq_of_lt (show x / 256 < 256 by omega)]
  have : x % 256 < 256 := Nat.mod_lt _ (by omega)
  omega

lemma ntohs_be (a b : Nat) (ha : a < 256) (hb : b < 256) :
    ntohs (a + 256 * b) = a * 256 + b := by
  unfold ntohs
  rw [Nat.add_mul_mod_self_left, Nat.add_mul_div_left _ _ (show 0 < 256 by omega),
    Nat.mod_eq_of_lt ha, Nat.div_eq_of_lt ha]
  omega

lemma icmp_image_eq (req : icmp_t) (hwf : req.WF) :
    icmp_image req =
      [req.type, req.code, 0, 0, req.id / 256, req.id % 256,
       req.seq / 256, req.seq % 256,
       req.ts % 256, req.ts / 256 % 256, req.ts / 65536 % 256,
       req.ts / 16777216 % 256, req.ts / 4294967296 % 256,
       req.ts / 1099511627776 % 256, req.ts / 281474976710656 % 256,
       req.ts / 72057594037927936] := by
  obtain ⟨h1, h2, h3, h4, h5, h6⟩ := hwf
  have e1 : req.id % 65536 = req.id := Nat.mod_eq_of_lt h4
  have e2 : req.seq % 65536 = req.seq := Nat.mod_eq_of_lt h5
  simp [icmp_image, store64, store16, store8, List.replicate, List.set,
    List.cons.injEq, e1, e2, htons_lo _ h4, htons_hi _ h4, htons_lo _ h5,
    htons_hi _ h5]
  omega

lemma icmp_serialize_eq (req : icmp_t) (hwf : req.WF) :
    icmp_serialize req =
      [req.type, req.code,
       icmp_checksum (icmp_image req) % 256, icmp_checksum (icmp_image req) / 256,
       req.id / 256, req.id % 256, req.seq / 256, req.seq % 256,
       req.ts % 256, req.ts / 256 % 256, req.ts / 65536 % 256,
       req.ts / 16777216 % 256, req.ts / 4294967296 % 256,
       req.ts / 1099511627776 % 256, req.ts / 281474976710656 % 256,
       req.ts / 72057594037927936] := by
  have hle := icmp_checksum_le (icmp_image req)
  rw [icmp_serialize]
  rw [icmp_image_eq req hwf] at hle ⊢
  simp [store16, store8, List.set, List.cons.injEq]
  omega

lemma specWordSum_eq_pairs : ∀ buf : List Nat, buf.length % 2 = 0 →
    specWordSum buf = wordSumPairs buf := by
  intro buf
  induction buf using specWordSum.induct with
  | case1 b0 b1 rest ih =>
      intro h
      simp [List.length_cons] at h
      rw [specWordSum, wordSumPairs, ih (by omega)]
  | case2 b => intro h; simp at h
  | case3 => intro _; rfl

lemma specWordSum_le : ∀ buf : List Nat, (∀ b ∈ buf, b < 256) →
    specWordSum buf ≤ 32768 * buf.length := by
  intro buf
  induction buf using specWordSum.induct with
  | case1 b0 b1 rest ih =>
      intro hb
      have hb0 : b0 < 256 := hb b0 (by simp)
      have hb1 : b1 < 256 := hb b1 (by simp)
      have hr := ih (fun b hbm => hb b (by simp [hbm]))
      rw [specWordSum]
      simp only [List.length_cons]
      omega
  | case2 b =>
      intro hb
      have : b < 256 := hb b (by simp)
      rw [specWordSum]
      simp only [List.length_cons]
      omega
  | case3 => intro _; simp [specWordSum]

lemma specFold_prop : ∀ s : Nat, s % 65535 = 0 → 0 < s → specFold s = 65535 := by
  intro s
  induction s using specFold.induct with
  | case1 s h => intro h1 h2; rw [specFold, if_pos h]; omega
  | case2 s h ih =>
      intro h1 h2
      rw [specFold, if_neg h]
      exact ih (by omega) (by omega)

lemma fold_mod_lemma (s : Nat) (h : s < 4294967296) :
    (s / 65536 + s % 65536 + (s / 65536 + s % 65536) / 65536) % 65536 % 65535 =
      s % 65535 := by
  have hq : s / 65536 ≤ 65535 := by omega
  by_cases h1 : s / 65536 + s % 65536 < 65536
  · have e1 : (s / 65536 + s % 65536) / 65536 = 0 := by omega
    rw [e1]
    omega
  · have e1 : (s / 65536 + s % 65536) / 65536 = 1 := by omega
    rw [e1]
    have e2 : (s / 65536 + s % 65536 + 1) % 65536 = s / 65536 + s % 65536 - 65535 := by
      omega
    rw [e2]
    omega

lemma guard_of_natCast (n : Nat) (h : n < 2147483648) :
    reply_len_guard (n : Int) = decide (n < 16) := by
  unfold reply_len_guard
  rw [Int.emod_eq_of_lt (by positivity)
    (by exact_mod_cast (by omega : n < 18446744073709551616))]
  simp

lemma lastMatch_append (log : List (Int × Int)) (q now : Int) (i : Fin 5) :
    lastMatch (log ++ [(q, now)]) i =
      if q % 5 = ((i : Nat) : Int) then some (q, now) else lastMatch log i := by
  unfold lastMatch
  rw [List.filter_append]
  by_cases h : q % 5 = ((i : Nat) : Int)
  · rw [if_pos h]; simp [h]
  · rw [if_neg h]; simp [h]

lemma step_preserves (pid : Nat) (s : Session) (e : Ev) (log : List (Int × Int))
    (hok : evOk e) (hinv : WinInv s log) :
    WinInv (step pid s e).1 (log ++ sendsOf s e) := by
  obtain ⟨hseq, hslots⟩ := hinv
  cases e with
  | tick now =>
      simp only [step, record_send, sendsOf]
      refine ⟨?_, ?_⟩ <;> dsimp only
      · omega
      intro i
      by_cases hi : i = intIdx (s.seq + 1)
      · subst hi
        right
        refine ⟨(s.seq + 1, now), ?_, ?_, ?_⟩
        · rw [lastMatch_append, if_pos]
          simp [intIdx]
          omega
        · simp [intIdx]; omega
        · simp [Function.update_apply]
      · rcases hslots i with h0 | ⟨p, hp1, hp2, hp3⟩
        · left
          simpa [Function.update_apply, if_neg hi] using h0
        · right
          refine ⟨p, ?_, hp2, ?_⟩
          · rw [lastMatch_append, if_neg]
            · exact hp1
            · simp [intIdx] at hi ⊢
              intro hcon
              apply hi
              apply Fin.ext
              simp [intIdx]
              omega
          · simpa [Function.update_apply, if_neg hi] using hp3
  | recv d now =>
      simp only [step, sendsOf, List.append_nil]
      cases hp : parse_reply (d.drop 20) (((d.length : Nat) : Int) - 20) with
      | none => exact ⟨hseq, hslots⟩
      | some r =>
          by_cases hid : r.id = pid % 65536
          · simp only [if_pos hid, resolve]
            by_cases hstale : ((r.seq : Nat) : Int) ≤ s.seq - 5
            · simp only [if_pos hstale]
              exact ⟨hseq, hslots⟩
            · simp only [if_neg hstale]
              refine ⟨hseq, ?_⟩
              intro i
              by_cases hi : i = slotIdx r.seq
              · left; subst hi; simp [Function.update_apply]
              · rcases hslots i with h0 | ⟨p, hp1, hp2, hp3⟩
                · left; simpa [Function.update_apply, if_neg hi] using h0
                · right
                  exact ⟨p, hp1, hp2,
                    by simpa [Function.update_apply, if_neg hi] using hp3⟩
          · simp only [if_neg hid]
            exact ⟨hseq, hslots⟩

lemma runS_inv (pid : Nat) :
    ∀ (es : List Ev) (s : Session) (log0 : List (Int × Int)),
      (∀ e ∈ es, evOk e) → WinInv s log0 →
      WinInv (runS pid s es) (log0 ++ sendLog pid s es) := by
  intro es
  induction es with
  | nil => intro s log0 _ hinv; simpa [runS, sendLog] using hinv
  | cons e es ih =>
      intro s log0 hok hinv
      rw [runS, sendLog, ← List.append_assoc]
      exact ih _ _ (fun x hx => hok x (List.mem_cons_of_mem _ hx))
        (step_preserves pid s e log0 (hok e (List.mem_cons_self _ _)) hinv)

lemma init_inv : WinInv initSession [] := by
  refine ⟨by simp [initSession], ?_⟩
  intro i
  left
  rfl

lemma becomes_nonzero (pid : Nat) (s : Session) (e : Ev) (i : Fin 5)
    (hch : (step pid s e).1.sends i ≠ s.sends i)
    (hnz : (step pid s e).1.sends i ≠ 0) :
    ∃ now, e = Ev.tick now ∧ ((i : Nat) : Int) = (s.seq + 1) % 5 ∧
      (step pid s e).1.sends i = now := by
  cases e with
  | tick now =>
      refine ⟨now, rfl, ?_, ?_⟩
      · by_cases hi : i = intIdx (s.seq + 1)
        · subst hi; simp [intIdx]; omega
        · exfalso
          apply hch
          simp only [step, record_send]
          rw [Function.update_apply, if_neg hi]
      · by_cases hi : i = intIdx (s.seq + 1)
        · subst hi
          simp only [step, record_send]
          rw [Function.update_apply, if_pos rfl]
        · exfalso
          apply hch
          simp only [step, record_send]
          rw [Function.update_apply, if_neg hi]
  | recv d now =>
      exfalso
      cases hp : parse_reply (d.drop 20) (((d.length : Nat) : Int) - 20) with
      | none => simp only [step, hp] at hch; exact hch rfl
      | some r =>
          simp only [step, hp] at hch hnz
          by_cases hid : r.id = pid % 65536
          · rw [if_pos hid] at hch hnz
            simp only [resolve] at hch hnz
            by_cases hstale : ((r.seq : Nat) : Int) ≤ s.seq - 5
            · rw [if_pos hstale] at hch; exact hch rfl
            · rw [if_neg hstale] at hch hnz
              dsimp only at hch hnz
              by_cases hi : i = slotIdx r.seq
              · subst hi
                rw [Function.update_apply, if_pos rfl] at hnz
                exact hnz rfl
              · rw [Function.update_apply, if_neg hi] at hch
                exact hch rfl
          · rw [if_neg hid] at hch; exact hch rfl

lemma becomes_zero (pid : Nat) (s : Session) (e : Ev) (i : Fin 5)
    (hok : evOk e)
    (hnz : s.sends i ≠ 0)
    (hz : (step pid s e).1.sends i = 0) :
    ∃ d now r, e = Ev.recv d now ∧
      parse_reply (d.drop 20) ((d.length : Int) - 20) = some r ∧
      r.id = pid % 65536 ∧ ¬ ((r.seq : Int) ≤ s.seq - 5) ∧ slotIdx r.seq = i := by
  cases e with
  | tick now =>
      exfalso
      simp only [step, record_send] at hz
      by_cases hi : i = intIdx (s.seq + 1)
      · subst hi
        rw [Function.update_apply, if_pos rfl] at hz
        exact hok hz
      · rw [Function.update_apply, if_neg hi] at hz
        exact hnz hz
  | recv d now =>
      cases hp : parse_reply (d.drop 20) (((d.length : Nat) : Int) - 20) with
      | none => simp only [step, hp] at hz; exact absurd hz hnz
      | some r =>
          simp only [step, hp] at hz
          by_cases hid : r.id = pid % 65536
          · rw [if_pos hid] at hz
            simp only [resolve] at hz
            by_cases hstale : ((r.seq : Nat) : Int) ≤ s.seq - 5
            · rw [if_pos hstale] at hz; exact absurd hz hnz
            · rw [if_neg hstale] at hz
              dsimp only at hz
              by_cases hi : i = slotIdx r.seq
              · subst hi
                exact ⟨d, now, r, rfl, hp, hid, hstale, rfl⟩
              · rw [Function.update_apply, if_neg hi] at hz
                exact absurd hz hnz
          · rw [if_neg hid] at hz; exact absurd hz hnz

/-! ### Claim theorems -/

/-- C1 (code bug evaluation): the receive path's resolve logic has no
emptiness test on the window slot.  Starting from a window whose slot 3
holds send time 1000 with current seq = 3, a first reply for seq 3 at
time 1042 is reported with elapsed 42 and clears the slot; a second
reply for the same seq 3 at time 1084 is NOT dropped: it is reported
again, with bogus elapsed 1084 = now - 0, contradicting the resolve
contract's "empty slot means no match, no report". -/
theorem claim1_resolve_reports_on_empty_slot :
    (resolve 3 (Function.update (fun _ => (0 : Int)) (slotIdx 3) 1000) 3 1042).2 =
        some (3, 42) ∧
      (resolve 3
          (resolve 3 (Function.update (fun _ => (0 : Int)) (slotIdx 3) 1000) 3 1042).1
          3 1084).2 = some (3, 1084) := by
  constructor <;> decide

/-- C2: with window size 5, performing the send bookkeeping for
sequences 0..9 consecutively (at arbitrary nonzero send times) and no
replies reports exactly 5 timeouts, for sequences 0..4, the timeout for
sequence k being emitted during the send of sequence k + 5. -/
theorem claim2_window_timeouts (τ : Nat → Int) (h : ∀ i, i < 10 → τ i ≠ 0) :
    (runSends (fun _ => 0) τ [0, 1, 2, 3, 4, 5, 6, 7, 8, 9]).2 =
      [(5, 0), (6, 1), (7, 2), (8, 3), (9, 4)] := by
  have h0 := h 0 (by omega)
  have h1 := h 1 (by omega)
  have h2 := h 2 (by omega)
  have h3 := h 3 (by omega)
  have h4 := h 4 (by omega)
  simp [runSends, record_send, intIdx, Function.update_apply, h0, h1, h2, h3, h4]

/-- C2 witness: the run of sequences 0..9 at concrete times i + 1. -/
theorem claim2_window_timeouts_witness :
    (∀ i : Nat, i < 10 → ((i : Int) + 1) ≠ 0) ∧
      (runSends (fun _ => 0) (fun i => (i : Int) + 1)
          [0, 1, 2, 3, 4, 5, 6, 7, 8, 9]).2 =
        [(5, 0), (6, 1), (7, 2), (8, 3), (9, 4)] :=
  ⟨fun i _ => by omega, claim2_window_timeouts _ (fun i _ => by omega)⟩

/-- C3 counterexample: for the odd-length buffer [0,0,0,0,1] with its
checksum field (bytes 2-3) zeroed, inserting `icmp_checksum` of it into
the checksum field and re-summing all 16-bit words with carry folding
does NOT give 0xFFFF (it gives 1): the claim fails on odd lengths
because `icmp_checksum` mishandles the final odd byte (see C8). -/
theorem claim3_counterexample :
    specFold (specWordSum
      (store16 [0, 0, 0, 0, 1] 2 (icmp_checksum [0, 0, 0, 0, 1]))) ≠ 65535 := by
  have h : specWordSum
      (store16 [0, 0, 0, 0, 1] 2 (icmp_checksum [0, 0, 0, 0, 1])) = 65536 := by
    decide
  rw [h, specFold]
  norm_num
  rw [specFold]
  norm_num

/-- C3 (amended): for every EVEN-length byte buffer (at least 4 bytes so
the checksum field exists, at most 131070 bytes so the 32-bit
accumulator cannot wrap) whose checksum field (bytes 2-3) is zeroed,
computing `icmp_checksum` over it, inserting the result into the
checksum field, and summing all 16-bit words of the result with
end-around carry folding yields exactly 0xFFFF. -/
theorem claim3_checksum_self_consistency_even
    (buf : List Nat) (hb : ∀ b ∈ buf, b < 256) (hlen : 4 ≤ buf.length)
    (heven : buf.length % 2 = 0) (hsize : buf.length ≤ 131070)
    (hz2 : buf.getD 2 0 = 0) (hz3 : buf.getD 3 0 = 0) :
    specFold (specWordSum (store16 buf 2 (icmp_checksum buf))) = 65535 := by
  rcases buf with _ | ⟨b0, _ | ⟨b1, _ | ⟨b2, _ | ⟨b3, rest⟩⟩⟩⟩ <;>
    simp only [List.length_nil, List.length_cons] at hlen <;> try omega
  simp only [List.getD_cons_succ, List.getD_cons_zero] at hz2 hz3
  subst hz2; subst hz3
  simp only [List.length_cons] at heven hsize
  have hrest_par : rest.length % 2 = 0 := by omega
  have hSle : wordSumPairs (b0 :: b1 :: 0 :: 0 :: rest) < 4294967296 := by
    have h1 : specWordSum (b0 :: b1 :: 0 :: 0 :: rest) ≤
        32768 * (b0 :: b1 :: 0 :: 0 :: rest).length := specWordSum_le _ hb
    have h2 : specWordSum (b0 :: b1 :: 0 :: 0 :: rest) =
        wordSumPairs (b0 :: b1 :: 0 :: 0 :: rest) := by
      apply specWordSum_eq_pairs
      simp only [List.length_cons]
      omega
    simp only [List.length_cons] at h1
    omega
  have hSval : wordSumPairs (b0 :: b1 :: 0 :: 0 :: rest) =
      b0 + 256 * b1 + wordSumPairs rest := by
    rw [wordSumPairs, wordSumPairs]
    omega
  obtain ⟨S, hS⟩ : ∃ S, wordSumPairs (b0 :: b1 :: 0 :: 0 :: rest) = S := ⟨_, rfl⟩
  rw [hS] at hSle hSval
  obtain ⟨m, hm⟩ : ∃ m,
      (S / 65536 + S % 65536 + (S / 65536 + S % 65536) / 65536) % 65536 = m :=
    ⟨_, rfl⟩
  have hck : icmp_checksum (b0 :: b1 :: 0 :: 0 :: rest) = 65535 - m := by
    rw [icmp_checksum]
    have hodd : ¬ (b0 :: b1 :: 0 :: 0 :: rest).length % 2 = 1 := by
      simp only [List.length_cons]
      omega
    rw [if_neg hodd, Nat.zero_add, hS, Nat.mod_eq_of_lt hSle, hm]
  have hm_le : m ≤ 65535 := by omega
  have hm_mod : m % 65535 = S % 65535 := by
    rw [← hm]
    exact fold_mod_lemma S hSle
  have hS0m : S = 0 → m = 0 := by
    intro h0
    rw [h0] at hm
    omega
  clear hm hS hb heven hsize hlen
  have hins : store16 (b0 :: b1 :: 0 :: 0 :: rest) 2
        (icmp_checksum (b0 :: b1 :: 0 :: 0 :: rest)) =
      b0 :: b1 :: ((65535 - m) % 256) :: ((65535 - m) / 256 % 256) :: rest := by
    rw [hck]
    simp [store16, store8, List.set]
  rw [hins]
  have hT : specWordSum
        (b0 :: b1 :: ((65535 - m) % 256) :: ((65535 - m) / 256 % 256) :: rest) =
      S + (65535 - m) := by
    rw [specWordSum, specWordSum, specWordSum_eq_pairs rest hrest_par]
    have h256 : (65535 - m) / 256 < 256 := by omega
    rw [Nat.mod_eq_of_lt h256]
    omega
  rw [hT]
  rcases Nat.eq_zero_or_pos S with hS0 | hSpos
  · rw [hS0m hS0, hS0]
    norm_num
    rw [specFold]
    norm_num
  · apply specFold_prop
    · omega
    · omega

/-- C3 witness: the even-length buffer [8,0,0,0,1,2]. -/
theorem claim3_checksum_self_consistency_even_witness :
    specFold (specWordSum
      (store16 [8, 0, 0, 0, 1, 2] 2 (icmp_checksum [8, 0, 0, 0, 1, 2]))) = 65535 :=
  claim3_checksum_self_consistency_even [8, 0, 0, 0, 1, 2]
    (by decide) (by decide) (by decide) (by decide) (by decide) (by decide)

/-- C4 counterexample: serializing an actual EchoRequest (type 8) and
parsing the 16 bytes back fails: `parse_reply` requires type 0, so the
round trip does not validate for any request with type 8. -/
theorem claim4_counterexample :
    parse_reply (icmp_serialize ⟨8, 0, 0, 1, 2, 3⟩) 16 = none := by
  decide

/-- C4 (amended): for every `icmp_t` value in echo-REPLY form (type 0,
code 0, fields within their C widths), serializing it and parsing the
resulting 16 bytes with the checksum field intact succeeds and recovers
identifier, sequence and timestamp identical to the original. -/
theorem claim4_roundtrip_reply_form (req : icmp_t) (hwf : req.WF)
    (ht : req.type = 0) (hc : req.code = 0) :
    parse_reply (icmp_serialize req) 16 =
      some ⟨req.type, req.code, ntohs (icmp_checksum (icmp_image req)),
            req.id, req.seq, req.ts⟩ := by
  obtain ⟨h1, h2, h3, h4, h5, h6⟩ := hwf
  have hle := icmp_checksum_le (icmp_image req)
  rw [icmp_serialize_eq req ⟨h1, h2, h3, h4, h5, h6⟩]
  rw [parse_reply]
  have hg : reply_len_guard 16 = false := by decide
  rw [hg]
  simp only [Bool.false_eq_true, if_false, List.getD, ht, hc]
  have hid0 : req.id / 256 < 256 := by omega
  have hseq0 : req.seq / 256 < 256 := by omega
  have htake : ∀ x y : Nat, List.take (Int.toNat 16)
      [0, 0, x % 256, x / 256, req.id / 256, req.id % 256,
       req.seq / 256, req.seq % 256, req.ts % 256, req.ts / 256 % 256,
       req.ts / 65536 % 256, req.ts / 16777216 % 256, req.ts / 4294967296 % 256,
       req.ts / 1099511627776 % 256, req.ts / 281474976710656 % 256, y] =
      [0, 0, x % 256, x / 256, req.id / 256, req.id % 256,
       req.seq / 256, req.seq % 256, req.ts % 256, req.ts / 256 % 256,
       req.ts / 65536 % 256, req.ts / 16777216 % 256, req.ts / 4294967296 % 256,
       req.ts / 1099511627776 % 256, req.ts / 281474976710656 % 256, y] :=
    fun x y => rfl
  rw [htake]
  have hzero : store16
      [0, 0, icmp_checksum (icmp_image req) % 256, icmp_checksum (icmp_image req) / 256,
       req.id / 256, req.id % 256, req.seq / 256, req.seq % 256,
       req.ts % 256, req.ts / 256 % 256, req.ts / 65536 % 256,
       req.ts / 16777216 % 256, req.ts / 4294967296 % 256,
       req.ts / 1099511627776 % 256, req.ts / 281474976710656 % 256,
       req.ts / 72057594037927936] 2 0 = icmp_image req := by
    rw [icmp_image_eq req ⟨h1, h2, h3, h4, h5, h6⟩, ht, hc]
    rfl
  rw [hzero]
  have hr16 : readU16LE
      [0, 0, icmp_checksum (icmp_image req) % 256, icmp_checksum (icmp_image req) / 256,
       req.id / 256, req.id % 256, req.seq / 256, req.seq % 256,
       req.ts % 256, req.ts / 256 % 256, req.ts / 65536 % 256,
       req.ts / 16777216 % 256, req.ts / 4294967296 % 256,
       req.ts / 1099511627776 % 256, req.ts / 281474976710656 % 256,
       req.ts / 72057594037927936] 2 = icmp_checksum (icmp_image req) := by
    simp [readU16LE, List.getD]
    omega
  rw [hr16]
  simp [readU16LE, readU64LE, List.getD, icmp_t.mk.injEq]
  refine ⟨?_, ?_, ?_⟩
  · rw [ntohs_be _ _ hid0 (Nat.mod_lt _ (by omega))]
    omega
  · rw [ntohs_be _ _ hseq0 (Nat.mod_lt _ (by omega))]
    omega
  · omega

/-- C4 witness: the round trip at the concrete reply-form value
(type 0, code 0, id 7, seq 9, ts 11). -/
theorem claim4_roundtrip_reply_form_witness :
    parse_reply (icmp_serialize ⟨0, 0, 0, 7, 9, 11⟩) 16 =
      some ⟨0, 0, ntohs (icmp_checksum (icmp_image ⟨0, 0, 0, 7, 9, 11⟩)), 7, 9, 11⟩ :=
  claim4_roundtrip_reply_form ⟨0, 0, 0, 7, 9, 11⟩
    ⟨by norm_num, by norm_num, by norm_num, by norm_num, by norm_num, by norm_num⟩
    rfl rfl

/-- C5: `parse_reply` on a buffer of its true length (the C `int`
argument is nonnegative and within `int` range) returns failure exactly
when one of its short-circuiting checks fails — length below 16 bytes,
type byte nonzero or code byte nonzero, or the recomputed checksum (over
a copy with the checksum field zeroed) differing from the received
checksum field, both in network byte order; on success the identifier,
sequence and checksum are byte-swapped to host order and the timestamp
is passed through unconverted; and the event-loop caller silently drops
(no state change, no output) every datagram whose parse fails. -/
theorem claim5_parse_reply_contract :
    (∀ buf : List Nat, buf.length < 2147483648 →
      ((parse_reply buf (buf.length : Int) = none ↔
         buf.length < 16 ∨ buf.getD 0 0 ≠ 0 ∨ buf.getD 1 0 ≠ 0 ∨
           readU16LE buf 2 ≠ icmp_checksum (store16 buf 2 0)) ∧
       ∀ r, parse_reply buf (buf.length : Int) = some r →
         r.type = 0 ∧ r.code = 0 ∧ r.checksum = ntohs (readU16LE buf 2) ∧
           r.id = ntohs (readU16LE buf 4) ∧ r.seq = ntohs (readU16LE buf 6) ∧
           r.ts = readU64LE buf 8)) ∧
    (∀ (pid : Nat) (s : Session) (d : List Nat) (now : Int),
      parse_reply (d.drop 20) ((d.length : Int) - 20) = none →
      step pid s (Ev.recv d now) = (s, [])) := by
  constructor
  · intro buf hlen
    rw [parse_reply, guard_of_natCast _ hlen]
    have htake : List.take (Int.toNat (buf.length : Int)) buf = buf := by
      rw [Int.toNat_natCast, List.take_length]
    rw [htake]
    simp only [decide_eq_true_eq]
    by_cases h16 : buf.length < 16
    · rw [if_pos h16]
      constructor
      · simp [h16]
      · intro r hr
        exact absurd hr (by simp)
    · rw [if_neg h16]
      by_cases htc : buf.getD 0 0 ≠ 0 ∨ buf.getD 1 0 ≠ 0
      · rw [if_pos htc]
        constructor
        · constructor
          · intro _
            rcases htc with h | h
            · exact Or.inr (Or.inl h)
            · exact Or.inr (Or.inr (Or.inl h))
          · intro _; rfl
        · intro r hr
          exact absurd hr (by simp)
      · rw [if_neg htc]
        push_neg at htc
        by_cases hck : readU16LE buf 2 ≠ icmp_checksum (store16 buf 2 0)
        · rw [if_pos hck]
          constructor
          · constructor
            · intro _
              exact Or.inr (Or.inr (Or.inr hck))
            · intro _; rfl
          · intro r hr
            exact absurd hr (by simp)
        · rw [if_neg hck]
          constructor
          · constructor
            · intro h
              exact absurd h (by simp)
            · intro h
              push_neg at hck
              rcases h with h | h | h | h
              · exact absurd h h16
              · exact absurd htc.1 h
              · exact absurd htc.2 h
              · exact absurd hck h
          · intro r hr
            rw [Option.some.injEq] at hr
            subst hr
            push_neg at hck
            refine ⟨htc.1, htc.2, rfl, rfl, rfl, rfl⟩
  · intro pid s d now hnone
    simp only [step, hnone]

/-- C5 witness: a 36-byte all-zero datagram fails the checksum check and
is silently dropped by the event loop. -/
theorem claim5_parse_reply_contract_witness :
    step 7 initSession (Ev.recv (List.replicate 36 0) 5) = (initSession, []) :=
  claim5_parse_reply_contract.2 7 initSession (List.replicate 36 0) 5 (by decide)

/-- C6: `icmp_serialize` into its 16-byte buffer produces exactly the
wire layout: byte 0 the type, byte 1 the code, bytes 2-3 the checksum of
the image whose checksum field is zero (the network-byte-order value
returned by `icmp_checksum`, stored by its two bytes), bytes 4-5 the
identifier and bytes 6-7 the sequence in network byte order (high byte
first), and bytes 8-15 the timestamp copied verbatim in native
little-endian order. -/
theorem claim6_serialize_layout (req : icmp_t) (hwf : req.WF) :
    icmp_image req =
      [req.type, req.code, 0, 0, req.id / 256, req.id % 256,
       req.seq / 256, req.seq % 256,
       req.ts % 256, req.ts / 256 % 256, req.ts / 65536 % 256,
       req.ts / 16777216 % 256, req.ts / 4294967296 % 256,
       req.ts / 1099511627776 % 256, req.ts / 281474976710656 % 256,
       req.ts / 72057594037927936] ∧
    icmp_serialize req =
      [req.type, req.code,
       icmp_checksum (icmp_image req) % 256, icmp_checksum (icmp_image req) / 256,
       req.id / 256, req.id % 256, req.seq / 256, req.seq % 256,
       req.ts % 256, req.ts / 256 % 256, req.ts / 65536 % 256,
       req.ts / 16777216 % 256, req.ts / 4294967296 % 256,
       req.ts / 1099511627776 % 256, req.ts / 281474976710656 % 256,
       req.ts / 72057594037927936] :=
  ⟨icmp_image_eq req hwf, icmp_serialize_eq req hwf⟩

/-- C6 witness: the layout at type 8, code 0, id 258, seq 770, ts 3. -/
theorem claim6_serialize_layout_witness :
    icmp_image ⟨8, 0, 0, 258, 770, 3⟩ =
        [8, 0, 0, 0, 1, 2, 3, 2, 3, 0, 0, 0, 0, 0, 0, 0] ∧
      icmp_serialize ⟨8, 0, 0, 258, 770, 3⟩ =
        [8, 0, icmp_checksum (icmp_image ⟨8, 0, 0, 258, 770, 3⟩) % 256,
         icmp_checksum (icmp_image ⟨8, 0, 0, 258, 770, 3⟩) / 256,
         1, 2, 3, 2, 3, 0, 0, 0, 0, 0, 0, 0] := by
  have h := claim6_serialize_layout ⟨8, 0, 0, 258, 770, 3⟩
    ⟨by norm_num, by norm_num, by norm_num, by norm_num, by norm_num, by norm_num⟩
  constructor
  · rw [h.1]
    norm_num
  · rw [h.2]
    norm_num

/-- C7 counterexample: at tick 65536 (the first tick after the 16-bit
wire sequence wraps) the probe's wire sequence is 0; even with every
window slot live (nonzero), the reply carrying that wire sequence is
rejected by the staleness check `reply.seq <= seq - 5`, because the
`int` counter has reached 65536 while the wire field wrapped to 0. -/
theorem claim7_counterexample :
    (resolve ((65536 : Nat) : Int) (fun _ => (1000 : Int))
      (wire_seq 65536) 99999).2 = none := by
  decide

/-- C7 (amended): correlation works only before the wrap: for every tick
t with 1 ≤ t ≤ 65535, the wire sequence equals t, and a reply carrying
it passes the staleness check and is matched to window slot t mod 5,
reporting elapsed = now minus that slot's stored time. -/
theorem claim7_staleness_before_wrap (t : Nat) (w : Window) (now : Int)
    (h1 : 1 ≤ t) (h2 : t ≤ 65535) :
    wire_seq t = t ∧
      resolve (t : Int) w (wire_seq t) now =
        (Function.update w (slotIdx t) 0, some (t, now - w (slotIdx t))) := by
  have hw : wire_seq t = t := Nat.mod_eq_of_lt (by omega)
  refine ⟨hw, ?_⟩
  rw [hw, resolve, if_neg (by omega)]

/-- C7 witness: tick 3, all slots holding time 100, reply at time 142. -/
theorem claim7_staleness_before_wrap_witness :
    wire_seq 3 = 3 ∧
      resolve ((3 : Nat) : Int) (fun _ => (100 : Int)) (wire_seq 3) 142 =
        (Function.update (fun _ => (100 : Int)) (slotIdx 3) 0, some (3, 142 - 100)) :=
  claim7_staleness_before_wrap 3 (fun _ => 100) 142 (by omega) (by omega)

/-- C8 (code bug evaluation): on the odd-length buffer [1,2,3],
`icmp_checksum` does not treat the final byte 3 as the low byte of a
final padded word: its result 65020 equals the result on [1,2,77]
(the final byte is ignored entirely — the code reads the byte at index
len-2 instead), and differs from the checksum 65019 of the buffer
extended with one zero byte, which is what the claimed padding rule
would produce. -/
theorem claim8_odd_byte_bug :
    icmp_checksum [1, 2, 3] ≠ icmp_checksum ([1, 2, 3] ++ [0]) ∧
      icmp_checksum [1, 2, 3] = icmp_checksum [1, 2, 77] ∧
      icmp_checksum [1, 2, 3] = 65020 ∧ icmp_checksum ([1, 2, 3] ++ [0]) = 65019 := by
  refine ⟨by decide, by decide, by decide, by decide⟩

/-- C9 (code bug evaluation): the guard `len < sizeof(icmp_t)` converts
the `int` length to the unsigned `size_t` before comparing, so the
negative length -4 (a 16-byte datagram: nrecv - 20) does NOT trigger the
guard and the packet fields are read; nonnegative lengths below 16 are
rejected as expected and 16 is accepted. -/
theorem claim9_length_guard_bug :
    reply_len_guard (-4) = false ∧ reply_len_guard 15 = true ∧
      reply_len_guard 16 = false := by
  refine ⟨by decide, by decide, by decide⟩

/-- C10: the window slot invariant, in three parts.  (a) After any event
sequence with nonzero tick times and well-formed datagrams, each of the
5 slots is either 0 or the send time of the most recently sent probe
whose (counter) sequence is congruent to the slot index mod 5.  (b) A
slot changes to a nonzero value only on a tick that sends a probe into
it.  (c) A nonempty slot becomes 0 only on a datagram that passed the
length, type/code and checksum checks of `parse_reply`, the identifier
check, and the staleness check, for that slot. -/
theorem claim10_window_invariant :
    (∀ (pid : Nat) (es : List Ev), (∀ e ∈ es, evOk e) →
      ∀ i : Fin 5, (runS pid initSession es).sends i = 0 ∨
        ∃ p : Int × Int, lastMatch (sendLog pid initSession es) i = some p ∧
          p.1 % 5 = ((i : Nat) : Int) ∧ p.2 = (runS pid initSession es).sends i) ∧
    (∀ (pid : Nat) (s : Session) (e : Ev) (i : Fin 5),
      (step pid s e).1.sends i ≠ s.sends i → (step pid s e).1.sends i ≠ 0 →
      ∃ now, e = Ev.tick now ∧ ((i : Nat) : Int) = (s.seq + 1) % 5 ∧
        (step pid s e).1.sends i = now) ∧
    (∀ (pid : Nat) (s : Session) (e : Ev) (i : Fin 5), evOk e →
      s.sends i ≠ 0 → (step pid s e).1.sends i = 0 →
      ∃ d now r, e = Ev.recv d now ∧
        parse_reply (d.drop 20) ((d.length : Int) - 20) = some r ∧
        r.id = pid % 65536 ∧ ¬ ((r.seq : Int) ≤ s.seq - 5) ∧ slotIdx r.seq = i) := by
  refine ⟨?_, becomes_nonzero, becomes_zero⟩
  intro pid es hok i
  have h := (runS_inv pid es initSession [] hok init_inv).2 i
  simpa using h

/-- C10 witness: a single tick at time 1000 changes slot 1 from 0 to
1000; part (b) of the invariant identifies the tick. -/
theorem claim10_window_invariant_witness :
    ∃ now, Ev.tick 1000 = Ev.tick now ∧
      (((1 : Fin 5) : Nat) : Int) = (initSession.seq + 1) % 5 ∧
      (step 7 initSession (Ev.tick 1000)).1.sends (1 : Fin 5) = now :=
  claim10_window_invariant.2.1 7 initSession (Ev.tick 1000) (1 : Fin 5)
    (by decide) (by decide)

end Myping
